import Mathlib

/-!
Verification of the backtesting engine (`src/backtest/backtest.py`) and the
market-data fetcher (`src/data/fetch_market_data.py`).

Shallow embedding conventions:
* Python floats are embedded as `ℚ`; the two irrational primitives the
  metrics code uses (`numpy.sqrt` and float `**`) are taken as function
  parameters `sqrtQ`/`powQ`, so every theorem holds for an arbitrary
  realization of them.
* Calendar dates are embedded as `ℕ` (only their ordering and equality are
  used by the engine).
* Python `float('inf')` results are embedded as `none : Option ℚ`.
* A Python dict is an association list in insertion order; inserting an
  existing key overwrites its value in place.
-/

/-- One OHLCV bar, reduced to the two fields the engine reads. -/
structure Bar where
  date : ℕ
  close : ℚ
deriving DecidableEq

/-- Association-list lookup, mirroring Python `d[k]` / `k in d`. -/
def dict_lookup {β : Type} (m : List (String × β)) (k : String) : Option β :=
  match m with
  | [] => none
  | (k0, v) :: rest => if k0 = k then some v else dict_lookup rest k

/-- Association-list insert mirroring Python `d[k] = v`: an existing key is
overwritten in place, a new key is appended. -/
def dict_insert {β : Type} (m : List (String × β)) (k : String) (v : β) :
    List (String × β) :=
  match m with
  | [] => [(k, v)]
  | (k0, v0) :: rest =>
      if k0 = k then (k0, v) :: rest else (k0, v0) :: dict_insert rest k v

/-- `fetch_historical_data` (src/data/fetch_market_data.py, lines 61-99): the
per-ticker fetch is the oracle `fetch`, where `none` models a raised
exception and `some []` an empty frame; both cases `continue` to the next
ticker, every other ticker is stored. -/
def fetch_historical_data (tickers : List String)
    (fetch : String → Option (List Bar)) : List (String × List Bar) :=
  tickers.foldl (fun results ticker =>
    match fetch ticker with
    | none => results
    | some hist => if hist = [] then results else dict_insert results ticker hist) []

/-- The window filter `df[(df.index >= start) & (df.index <= end)]` used by
`BacktestEngine.fetch_historical_data` and `_get_benchmark_returns`. -/
def filter_window (start_date end_date : ℕ) (df : List Bar) : List Bar :=
  df.filter (fun b => decide (start_date ≤ b.date) && decide (b.date ≤ end_date))

/-- `BacktestEngine.fetch_historical_data` (backtest.py lines 48-63) minus the
network call: restrict each ticker's frame to the window and keep the
non-empty ones, in order. -/
def filter_backtest_data (start_date end_date : ℕ)
    (data : List (String × List Bar)) : List (String × List Bar) :=
  (data.map (fun td => (td.1, filter_window start_date end_date td.2))).filter
    (fun td => !td.2.isEmpty)

/-- `BacktestEngine._get_trading_dates` (lines 197-202): the first ticker's
dates, filtered to the window.  The source indexes `list(data.keys())[0]` and
is only called with non-empty `data`; the `[]` branch is unreachable there. -/
def get_trading_dates (start_date end_date : ℕ)
    (data : List (String × List Bar)) : List ℕ :=
  match data with
  | [] => []
  | (_, df) :: _ =>
      (df.map Bar.date).filter
        (fun d => decide (start_date ≤ d) && decide (d ≤ end_date))

/-- `BacktestEngine._get_prices_for_date` (lines 204-220): exact-date closing
price per ticker; a ticker with no bar on the date is absent. -/
def get_prices_for_date (data : List (String × List Bar)) (date : ℕ) :
    List (String × ℚ) :=
  data.filterMap (fun td =>
    match (td.2.filter (fun b => b.date == date)).getLast? with
    | none => none
    | some b => some (td.1, b.close))

/-- `BacktestEngine._should_rebalance` (lines 222-228). -/
def should_rebalance (rebalance_frequency : String) (day_index : ℕ) : Bool :=
  if rebalance_frequency = "daily" then true
  else if rebalance_frequency = "weekly" then day_index % 5 == 0
  else false

/-- Modelled from the spec: a recorded ledger trade.  The Ledger collaborator
(spec §6, `src/portfolio/portfolio.py`) is outside the repository slice; a
trade records the instruction the engine issued: `buy(ticker, pct, price)` or
`sell(ticker, price)`. -/
structure Trade where
  ticker : String
  action : String
  pct : ℚ
  price : ℚ
deriving DecidableEq

/-- Modelled from the spec: an open ledger position (shares held and the last
mark-to-market price). -/
structure Position where
  shares : ℚ
  price : ℚ
deriving DecidableEq

/-- Modelled from the spec: the Ledger collaborator's state (spec §6): cash,
open positions, trade history, plus the configured initial capital. -/
structure Portfolio where
  initial_capital : ℚ
  cash : ℚ
  positions : List (String × Position)
  trades : List Trade
deriving DecidableEq

/-- Modelled from the spec: a freshly constructed ledger holds the configured
initial capital and zero positions (spec §4.4). -/
def Portfolio.init (initial_capital : ℚ) : Portfolio :=
  { initial_capital := initial_capital, cash := initial_capital,
    positions := [], trades := [] }

/-- Modelled from the spec: total market value of the open positions. -/
def Portfolio.positions_value (pf : Portfolio) : ℚ :=
  (pf.positions.map (fun p => p.2.shares * p.2.price)).sum

/-- Modelled from the spec: `total_value` exposed by the ledger. -/
def Portfolio.total_value (pf : Portfolio) : ℚ :=
  pf.cash + pf.positions_value

/-- Modelled from the spec: `update_prices` marks every open position to the
snapshot's price; positions absent from the snapshot keep their last price. -/
def Portfolio.update_prices (pf : Portfolio) (prices : List (String × ℚ)) :
    Portfolio :=
  { pf with
    positions := pf.positions.map (fun p =>
      match dict_lookup prices p.1 with
      | none => p
      | some px => (p.1, { p.2 with price := px })) }

/-- Modelled from the spec: `buy(ticker, pct_of_portfolio, price)` deploys
`pct`% of current total value into the asset and records the trade. -/
def Portfolio.buy (pf : Portfolio) (ticker : String) (pct : ℚ) (price : ℚ) :
    Portfolio :=
  let amount := pf.total_value * pct / 100
  { pf with
    cash := pf.cash - amount,
    positions := dict_insert pf.positions ticker { shares := amount / price, price := price },
    trades := pf.trades ++ [{ ticker := ticker, action := "buy", pct := pct, price := price }] }

/-- Modelled from the spec: `sell(ticker, price)` liquidates the position at
the given price and records the trade; a ticker with no open position is a
no-op. -/
def Portfolio.sell (pf : Portfolio) (ticker : String) (price : ℚ) : Portfolio :=
  match dict_lookup pf.positions ticker with
  | none => pf
  | some pos =>
      { pf with
        cash := pf.cash + pos.shares * price,
        positions := pf.positions.filter (fun p => !(p.1 = ticker : Bool)),
        trades := pf.trades ++ [{ ticker := ticker, action := "sell", pct := 0, price := price }] }

/-- `BacktestEngine._execute_equal_weight_strategy` (lines 263-277). -/
def execute_equal_weight_strategy (pf : Portfolio)
    (current_prices : List (String × ℚ)) : Portfolio :=
  if pf.positions ≠ [] then pf
  else
    let n_tickers := current_prices.length
    if n_tickers = 0 then pf
    else
      let pct_per_ticker : ℚ := 90 / (n_tickers : ℚ)
      current_prices.foldl (fun p tp => p.buy tp.1 pct_per_ticker tp.2) pf

/-- One decision-agent instruction `{ticker, action, pct}`. -/
structure LlmAction where
  ticker : String
  action : String
  pct : ℚ

/-- `BacktestEngine._execute_llm_strategy` (lines 230-261), with the agent's
decision supplied as `actions`: instructions whose ticker is absent from the
snapshot are skipped, the rest execute in order. -/
def execute_llm_strategy (actions : List LlmAction)
    (current_prices : List (String × ℚ)) (pf : Portfolio) : Portfolio :=
  actions.foldl (fun p a =>
    match dict_lookup current_prices a.ticker with
    | none => p
    | some price =>
        if a.action = "buy" then p.buy a.ticker a.pct price
        else if a.action = "sell" then p.sell a.ticker price
        else p) pf

/-- One row of `BacktestEngine.results` (lines 279-290). -/
structure DailyResult where
  date : ℕ
  total_value : ℚ
  cash : ℚ
  positions_value : ℚ
  total_return_pct : ℚ
  num_positions : ℕ
deriving DecidableEq

/-- `BacktestEngine._record_daily_result` (lines 279-290); the summary fields
are Modelled from the spec's ledger `get_summary` contract (§6). -/
def record_daily_result (date : ℕ) (pf : Portfolio) : DailyResult :=
  { date := date, total_value := pf.total_value, cash := pf.cash,
    positions_value := pf.positions_value,
    total_return_pct := (pf.total_value - pf.initial_capital) / pf.initial_capital * 100,
    num_positions := pf.positions.length }

/-- The per-step return series `returns` of `_calculate_metrics` (lines
297-299): `(V[i] - V[i-1]) / V[i-1]` for `i = 1 .. n-1`. -/
def daily_returns : List ℚ → List ℚ
  | v0 :: v1 :: rest => (v1 - v0) / v0 :: daily_returns (v1 :: rest)
  | _ => []

/-- The running-peak loop of `_calculate_metrics` (lines 316-325): state is
`(peak, max_drawdown)` and the emitted drawdown list. -/
def drawdown_loop (peak max_drawdown : ℚ) : List ℚ → ℚ × ℚ × List ℚ
  | [] => (peak, max_drawdown, [])
  | value :: rest =>
      let peak' := if value > peak then value else peak
      let drawdown := (peak' - value) / peak'
      let r := drawdown_loop peak' (max max_drawdown drawdown) rest
      (r.1, r.2.1, drawdown :: r.2.2)

/-- `omega_ratio` of `_calculate_metrics` (lines 330-333); `none` embeds the
`float('inf')` of the no-losses branch. -/
def omega_ratio (returns : List ℚ) : Option ℚ :=
  let gains := (returns.filter (fun r => decide (r > 0))).sum
  let losses := ((returns.filter (fun r => decide (r < 0))).map (fun r => |r|)).sum
  if losses > 0 then some (gains / losses) else none

/-- `profit_factor` of `_calculate_metrics` (lines 339-342); `none` embeds the
`float('inf')` of the no-losses branch. -/
def profit_factor (returns : List ℚ) : Option ℚ :=
  let gross_profit := (returns.filter (fun r => decide (r > 0))).sum
  let gross_loss := ((returns.filter (fun r => decide (r < 0))).map (fun r => |r|)).sum
  if gross_loss > 0 then some (gross_profit / gross_loss) else none

/-- `numpy.mean`. -/
def np_mean (xs : List ℚ) : ℚ := xs.sum / (xs.length : ℚ)

/-- `numpy.var` (population variance, ddof = 0; `numpy.std` is its square
root, taken via the `sqrtQ` parameter at use sites). -/
def np_var (xs : List ℚ) : ℚ :=
  ((xs.map (fun x => (x - np_mean xs) ^ 2)).sum) / (xs.length : ℚ)

/-- `numpy.cov(xs, ys)[0][1]` (sample covariance, ddof = 1). -/
def np_cov (xs ys : List ℚ) : ℚ :=
  ((xs.zip ys).map (fun p => (p.1 - np_mean xs) * (p.2 - np_mean ys))).sum /
    ((xs.length : ℚ) - 1)

/-- The dict returned by `BacktestEngine._calculate_metrics` (lines 359-376).
`omega_ratio` and `profit_factor` are `Option ℚ` because they can be
`float('inf')`. -/
structure Metrics where
  total_return : ℚ
  annualized_return : ℚ
  volatility : ℚ
  sharpe_ratio : ℚ
  sortino_ratio : ℚ
  max_drawdown : ℚ
  calmar_ratio : ℚ
  omega_ratio : Option ℚ
  win_rate : ℚ
  profit_factor : Option ℚ
  num_trades : ℕ
  beta : ℚ
  alpha : ℚ
  equity_curve : List ℚ
  drawdown_curve : List ℚ
  daily_returns : List ℚ
deriving DecidableEq

/-- `BacktestEngine._calculate_metrics` (lines 292-376).  `sqrtQ` embeds
`numpy.sqrt` and `powQ` embeds float `**`; `benchmark_returns = none` embeds
the `None` default, `results = []` yields `none` (the `{}` return). -/
def calculate_metrics (sqrtQ : ℚ → ℚ) (powQ : ℚ → ℚ → ℚ)
    (initial_capital : ℚ) (num_trades : ℕ) (results : List DailyResult)
    (benchmark_returns : Option (List ℚ)) : Option Metrics :=
  if results = [] then none
  else
    let values := results.map DailyResult.total_value
    let returns := daily_returns values
    let total_return := (values.getLast?.getD 0) / initial_capital - 1
    let days := results.length
    let annualized_return :=
      if 0 < days then powQ (1 + total_return) ((365 : ℚ) / (days : ℚ)) - 1 else 0
    let volatility := if returns ≠ [] then sqrtQ (np_var returns) * sqrtQ 252 else 0
    let risk_free_rate : ℚ := 0.02
    let sharpe_ratio :=
      if volatility > 0 then (annualized_return - risk_free_rate) / volatility else 0
    let dd := drawdown_loop initial_capital 0 values
    let max_drawdown := dd.2.1
    let drawdowns := dd.2.2
    let calmar_ratio := if max_drawdown > 0 then annualized_return / max_drawdown else 0
    let win_rate :=
      if returns ≠ [] then
        ((returns.filter (fun r => decide (r > 0))).length : ℚ) / (returns.length : ℚ)
      else 0
    let downside_returns := returns.filter (fun r => decide (r < 0))
    let downside_std :=
      if downside_returns ≠ [] then sqrtQ (np_var downside_returns) * sqrtQ 252 else 0
    let sortino_ratio :=
      if downside_std > 0 then (annualized_return - risk_free_rate) / downside_std else 0
    let ba : ℚ × ℚ :=
      match benchmark_returns with
      | none => (0, 0)
      | some br =>
          if br ≠ [] ∧ br.length = returns.length then
            let covariance := np_cov returns br
            let benchmark_variance := np_var br
            let beta := if benchmark_variance > 0 then covariance / benchmark_variance else 0
            (beta,
             annualized_return - (risk_free_rate + beta * (np_mean br * 252 - risk_free_rate)))
          else (0, 0)
    some
      { total_return := total_return
        annualized_return := annualized_return
        volatility := volatility
        sharpe_ratio := sharpe_ratio
        sortino_ratio := sortino_ratio
        max_drawdown := max_drawdown
        calmar_ratio := calmar_ratio
        omega_ratio := omega_ratio returns
        win_rate := win_rate
        profit_factor := profit_factor returns
        num_trades := num_trades
        beta := ba.1
        alpha := ba.2
        equity_curve := values
        drawdown_curve := drawdowns
        daily_returns := returns }

/-- `BacktestEngine._get_benchmark_returns` (lines 92-104). -/
def get_benchmark_returns (start_date end_date : ℕ)
    (data : List (String × List Bar)) (benchmark_ticker : String) : List ℚ :=
  match dict_lookup data benchmark_ticker with
  | none => []
  | some df => daily_returns ((filter_window start_date end_date df).map Bar.close)

/-- One iteration of the simulation loop of `run_backtest` (lines 145-166):
mark to market, optionally fire the configured strategy, append the daily
result. -/
def sim_step (rebalance_frequency strategy : String) (use_llm : Bool)
    (llm_actions : ℕ → List LlmAction) (data : List (String × List Bar))
    (st : Portfolio × List DailyResult) (idate : ℕ × ℕ) :
    Portfolio × List DailyResult :=
  let i := idate.1
  let current_date := idate.2
  let current_prices := get_prices_for_date data current_date
  let pf := st.1.update_prices current_prices
  let pf :=
    if should_rebalance rebalance_frequency i then
      if strategy = "llm" ∧ use_llm then
        execute_llm_strategy (llm_actions current_date) current_prices pf
      else if strategy = "equal_weight" then
        execute_equal_weight_strategy pf current_prices
      else pf
    else pf
  (pf, st.2 ++ [record_daily_result current_date pf])

/-- The fields of the dict `run_backtest` returns on success, kept whole: the
final ledger, the daily results and the computed metrics. -/
structure RunState where
  portfolio : Portfolio
  results : List DailyResult
  metrics : Metrics
  benchmark_returns : List ℚ

/-- Outcome of `run_backtest`: the `{}` return of the no-data branch, an
uncaught exception, or the result dict. -/
inductive RunOutcome where
  | empty
  | raised (msg : String)
  | ok (st : RunState)

/-- `BacktestEngine.run_backtest` (lines 106-195), with the fetched raw data
supplied as `raw_data`.  The `raised "KeyError"` branch models the
`metrics["total_return"]` lookup that would raise were `_calculate_metrics`
ever to return `{}` past the no-data guard. -/
def run_backtest (start_date end_date : ℕ) (initial_capital : ℚ)
    (rebalance_frequency : String) (use_llm : Bool) (strategy : String)
    (llm_actions : ℕ → List LlmAction) (sqrtQ : ℚ → ℚ) (powQ : ℚ → ℚ → ℚ)
    (benchmark : String) (raw_data : List (String × List Bar)) : RunOutcome :=
  let data := filter_backtest_data start_date end_date raw_data
  if data = [] then .empty
  else
    let trading_dates := get_trading_dates start_date end_date data
    let final := trading_dates.enum.foldl
      (sim_step rebalance_frequency strategy use_llm llm_actions data)
      (Portfolio.init initial_capital, [])
    let benchmark_returns := get_benchmark_returns start_date end_date data benchmark
    match calculate_metrics sqrtQ powQ initial_capital final.1.trades.length final.2
        (some benchmark_returns) with
    | none => .raised "KeyError"
    | some m =>
        .ok { portfolio := final.1, results := final.2, metrics := m,
              benchmark_returns := benchmark_returns }

/-! ## Helper lemmas -/

theorem foldl_buy_trades (prices : List (String × ℚ)) (pct : ℚ) :
    ∀ pf : Portfolio,
      (prices.foldl (fun p tp => p.buy tp.1 pct tp.2) pf).trades =
        pf.trades ++ prices.map (fun tp =>
          { ticker := tp.1, action := "buy", pct := pct, price := tp.2 }) := by
  induction prices with
  | nil => intro pf; simp
  | cons tp rest ih =>
      intro pf
      simp only [List.foldl_cons, List.map_cons]
      rw [ih]
      simp [Portfolio.buy, List.append_assoc]

/-! ## Claim theorems -/

/-- C7: a day is a rebalance opportunity iff the frequency is `daily`
(always) or `weekly` and the 0-based index is divisible by 5; over 12 trading
days with weekly rebalancing exactly the indices 0, 5 and 10 qualify. -/
theorem should_rebalance_spec (i : ℕ) :
    should_rebalance "daily" i = true ∧
    (should_rebalance "weekly" i = true ↔ i % 5 = 0) ∧
    (List.range 12).filter (should_rebalance "weekly") = [0, 5, 10] := by
  refine ⟨rfl, ?_, by decide⟩
  simp [should_rebalance]

/-- C6: `profit_factor` and `omega_ratio` are computed by the same formula
(sum of positive returns over sum of absolute negative returns) and are
infinite (`none`) exactly when the return series has no negative entry. -/
theorem profit_factor_eq_omega_ratio (R : List ℚ) :
    profit_factor R = omega_ratio R ∧
    (omega_ratio R = none ↔ ∀ r ∈ R, 0 ≤ r) := by
  refine ⟨rfl, ?_⟩
  unfold omega_ratio
  by_cases h : ((R.filter (fun r => decide (r < 0))).map (fun r => |r|)).sum > 0
  · rw [if_pos h]
    constructor
    · intro hc; exact absurd hc (by simp)
    · intro hall
      exfalso
      have hnil : R.filter (fun r => decide (r < 0)) = [] := by
        rw [List.filter_eq_nil_iff]
        intro a ha
        simp only [decide_eq_true_eq, not_lt]
        exact hall a ha
      rw [hnil] at h
      simp at h
  · rw [if_neg h]
    refine ⟨fun _ r hr => ?_, fun _ => rfl⟩
    by_contra hneg
    push_neg at hneg
    apply h
    have hmem : r ∈ R.filter (fun r => decide (r < 0)) :=
      List.mem_filter.mpr ⟨hr, by simpa using hneg⟩
    have habs : |r| ∈ (R.filter (fun r => decide (r < 0))).map (fun r => |r|) :=
      List.mem_map_of_mem _ hmem
    have hle : |r| ≤ ((R.filter (fun r => decide (r < 0))).map (fun r => |r|)).sum := by
      apply List.single_le_sum _ _ habs
      intro x hx
      obtain ⟨y, _, hy⟩ := List.mem_map.mp hx
      rw [← hy]; exact abs_nonneg y
    exact lt_of_lt_of_le (abs_pos.mpr (ne_of_lt hneg)) hle

/-- C4: the equal-weight strategy is a no-op when the ledger already holds a
position or the price snapshot is empty; otherwise it issues exactly one buy
per asset of the snapshot, each deploying `90 / n` percent of the portfolio. -/
theorem equal_weight_spec (pf : Portfolio) (current_prices : List (String × ℚ)) :
    (pf.positions ≠ [] → execute_equal_weight_strategy pf current_prices = pf) ∧
    (current_prices = [] → execute_equal_weight_strategy pf current_prices = pf) ∧
    (pf.positions = [] → current_prices ≠ [] →
      (execute_equal_weight_strategy pf current_prices).trades =
        pf.trades ++ current_prices.map (fun tp =>
          { ticker := tp.1, action := "buy",
            pct := 90 / (current_prices.length : ℚ), price := tp.2 })) := by
  refine ⟨?_, ?_, ?_⟩
  · intro h
    simp [execute_equal_weight_strategy, h]
  · intro h
    subst h
    simp [execute_equal_weight_strategy]
  · intro h1 h2
    unfold execute_equal_weight_strategy
    rw [if_neg (fun hn => hn h1)]
    simp only
    rw [if_neg (fun hlen => h2 (List.length_eq_zero.mp hlen))]
    exact foldl_buy_trades current_prices _ pf

/-- Witness for C4: three assets at price 100 on a fresh 10000-capital ledger
receive one buy each at 30% of the portfolio. -/
theorem equal_weight_spec_witness :
    (Portfolio.init 10000).positions = [] ∧
    (execute_equal_weight_strategy (Portfolio.init 10000)
        [("SPY", 100), ("QQQ", 100), ("GLD", 100)]).trades =
      [{ ticker := "SPY", action := "buy", pct := 30, price := 100 },
       { ticker := "QQQ", action := "buy", pct := 30, price := 100 },
       { ticker := "GLD", action := "buy", pct := 30, price := 100 }] := by
  have h := (equal_weight_spec (Portfolio.init 10000)
    [("SPY", 100), ("QQQ", 100), ("GLD", 100)]).2.2 rfl (by decide)
  refine ⟨rfl, ?_⟩
  rw [h]
  norm_num [Portfolio.init]

theorem dict_lookup_insert {β : Type} (m : List (String × β)) (k k' : String) (v : β) :
    dict_lookup (dict_insert m k v) k' = if k = k' then some v else dict_lookup m k' := by
  induction m with
  | nil => simp [dict_insert, dict_lookup]
  | cons kv rest ih =>
      obtain ⟨k0, v0⟩ := kv
      simp only [dict_insert]
      by_cases h0 : k0 = k
      · subst h0
        rw [if_pos rfl]
        by_cases h1 : k0 = k' <;> simp [dict_lookup, h1]
      · rw [if_neg h0]
        simp only [dict_lookup, ih]
        by_cases h1 : k0 = k' <;> by_cases h2 : k = k' <;> simp_all

theorem fetch_fold_lookup (fetch : String → Option (List Bar)) (tickers : List String) :
    ∀ (acc : List (String × List Bar)) (t : String),
      dict_lookup (tickers.foldl (fun results ticker =>
        match fetch ticker with
        | none => results
        | some hist => if hist = [] then results else dict_insert results ticker hist) acc) t =
      if t ∈ tickers ∧ (fetch t).getD [] ≠ [] then fetch t else dict_lookup acc t := by
  induction tickers with
  | nil => intro acc t; simp
  | cons ticker rest ih =>
      intro acc t
      rw [List.foldl_cons, ih]
      by_cases h1 : t = ticker
      · subst h1
        rcases hf : fetch t with _ | l
        · simp
        · by_cases hl : l = []
          · subst hl; simp
          · by_cases hr : t ∈ rest <;> simp [hl, hr, dict_lookup_insert]
      · have hmem : t ∈ ticker :: rest ↔ t ∈ rest := by
          simp [List.mem_cons, h1]
        have hstep : dict_lookup (match fetch ticker with
            | none => acc
            | some hist => if hist = [] then acc else dict_insert acc ticker hist) t =
            dict_lookup acc t := by
          rcases fetch ticker with _ | l
          · rfl
          · show dict_lookup (if l = [] then acc else dict_insert acc ticker l) t =
              dict_lookup acc t
            by_cases hl : l = []
            · rw [if_pos hl]
            · rw [if_neg hl, dict_lookup_insert, if_neg (fun hc => h1 hc.symm)]
        by_cases hc : t ∈ rest ∧ (fetch t).getD [] ≠ []
        · rw [if_pos hc, if_pos ⟨hmem.mpr hc.1, hc.2⟩]
        · rw [if_neg hc, if_neg (fun hk => hc ⟨hmem.mp hk.1, hk.2⟩), hstep]

/-- C9: the mapping `fetch_historical_data` returns holds exactly the tickers
whose fetch neither raised nor came back empty; a failing ticker is skipped
and fetching continues with the rest. -/
theorem fetch_historical_data_spec (tickers : List String)
    (fetch : String → Option (List Bar)) (t : String) (l : List Bar) :
    dict_lookup (fetch_historical_data tickers fetch) t = some l ↔
      t ∈ tickers ∧ fetch t = some l ∧ l ≠ [] := by
  unfold fetch_historical_data
  rw [fetch_fold_lookup]
  by_cases hc : t ∈ tickers ∧ (fetch t).getD [] ≠ []
  · rw [if_pos hc]
    constructor
    · intro h
      refine ⟨hc.1, h, ?_⟩
      have := hc.2
      rw [h] at this
      simpa using this
    · exact fun h => h.2.1
  · rw [if_neg hc]
    constructor
    · intro h
      simp [dict_lookup] at h
    · rintro ⟨ht, hf, hl⟩
      exact absurd ⟨ht, by rw [hf]; simpa using hl⟩ hc

theorem daily_returns_singleton (v : ℚ) : daily_returns [v] = [] := rfl

/-- C3: beta and alpha are computed only when a benchmark return series is
supplied and its length equals that of the per-step return series; whenever
the benchmark is absent, empty, or of any other length, both are 0. -/
theorem beta_alpha_gate (sqrtQ : ℚ → ℚ) (powQ : ℚ → ℚ → ℚ)
    (initial_capital : ℚ) (num_trades : ℕ) (results : List DailyResult)
    (benchmark_returns : Option (List ℚ)) (hne : results ≠ [])
    (hgate : benchmark_returns = none ∨ benchmark_returns = some [] ∨
      ∀ l, benchmark_returns = some l →
        l.length ≠ (daily_returns (results.map DailyResult.total_value)).length) :
    ∃ m, calculate_metrics sqrtQ powQ initial_capital num_trades results
        benchmark_returns = some m ∧ m.beta = 0 ∧ m.alpha = 0 := by
  unfold calculate_metrics
  rw [if_neg hne]
  refine ⟨_, rfl, ?_, ?_⟩ <;>
  · rcases hgate with h | h | h
    · subst h; rfl
    · subst h; simp
    · rcases hb : benchmark_returns with _ | br
      · rfl
      · have := h br hb
        simp [this]

/-- Witness for C3: three daily results (two per-step returns) against a
benchmark series of length one (`len(R) - 1`): the gate fires and beta and
alpha are both 0. -/
theorem beta_alpha_gate_witness :
    ∃ m, calculate_metrics (fun _ => 0) (fun _ _ => 0) 100 0
        [{ date := 0, total_value := 100, cash := 100, positions_value := 0,
           total_return_pct := 0, num_positions := 0 },
         { date := 1, total_value := 110, cash := 110, positions_value := 0,
           total_return_pct := 0, num_positions := 0 },
         { date := 2, total_value := 121, cash := 121, positions_value := 0,
           total_return_pct := 0, num_positions := 0 }]
        (some [1 / 100]) = some m ∧ m.beta = 0 ∧ m.alpha = 0 := by
  apply beta_alpha_gate
  · simp
  · refine Or.inr (Or.inr ?_)
    intro l hl
    injection hl with h
    subst h
    simp [daily_returns]

/-- C8: on a one-element daily-result sequence the per-step return series is
empty, the metric computation still produces a report (no exception), and
every guarded ratio falls back to its default: volatility 0, Sharpe 0, win
rate 0, Sortino 0, beta and alpha 0, omega and profit factor infinite. -/
theorem metrics_single_day (sqrtQ : ℚ → ℚ) (powQ : ℚ → ℚ → ℚ)
    (initial_capital : ℚ) (num_trades : ℕ) (r : DailyResult)
    (benchmark_returns : Option (List ℚ)) :
    ∃ m, calculate_metrics sqrtQ powQ initial_capital num_trades [r]
        benchmark_returns = some m ∧
      m.volatility = 0 ∧ m.sharpe_ratio = 0 ∧ m.win_rate = 0 ∧
      m.sortino_ratio = 0 ∧ m.beta = 0 ∧ m.alpha = 0 ∧
      m.omega_ratio = none ∧ m.profit_factor = none ∧ m.daily_returns = [] := by
  unfold calculate_metrics
  rw [if_neg (by simp : ¬([r] = []))]
  refine ⟨_, rfl, ?_, ?_, ?_, ?_, ?_, ?_, ?_, ?_, ?_⟩
  · simp [daily_returns_singleton]
  · simp [daily_returns_singleton]
  · simp [daily_returns_singleton]
  · simp [daily_returns_singleton]
  · rcases benchmark_returns with _ | br
    · rfl
    · rcases br with _ | ⟨b, br⟩ <;> simp [daily_returns_singleton]
  · rcases benchmark_returns with _ | br
    · rfl
    · rcases br with _ | ⟨b, br⟩ <;> simp [daily_returns_singleton]
  · simp [daily_returns_singleton, omega_ratio]
  · simp [daily_returns_singleton, profit_factor]
  · simp [daily_returns_singleton]

/-- The running maximum seeded at `peak`: the value the loop variable `peak`
of `_calculate_metrics` holds after consuming the list. -/
def running_peak (peak : ℚ) (vs : List ℚ) : ℚ :=
  vs.foldl (fun p v => if v > p then v else p) peak

theorem drawdown_loop_length (vs : List ℚ) : ∀ peak mdd,
    ((drawdown_loop peak mdd vs).2.2).length = vs.length := by
  induction vs with
  | nil => intro peak mdd; rfl
  | cons v rest ih =>
      intro peak mdd
      simp only [drawdown_loop, List.length_cons, ih]

theorem drawdown_loop_get? (vs : List ℚ) : ∀ peak mdd i, ∀ h : i < vs.length,
    ((drawdown_loop peak mdd vs).2.2).get? i =
      some ((running_peak peak (vs.take (i + 1)) - vs.get ⟨i, h⟩) /
        running_peak peak (vs.take (i + 1))) := by
  induction vs with
  | nil => intro peak mdd i h; exact absurd h (by simp)
  | cons v rest ih =>
      intro peak mdd i h
      match i with
      | 0 =>
          simp [drawdown_loop, running_peak]
      | Nat.succ j =>
          have hj : j < rest.length := Nat.lt_of_succ_lt_succ h
          simp only [drawdown_loop, List.get?_cons_succ, List.take_succ_cons,
            List.get_cons_succ]
          rw [ih _ _ j hj]
          rfl

theorem drawdown_loop_max_eq_foldl (vs : List ℚ) : ∀ peak mdd,
    (drawdown_loop peak mdd vs).2.1 = (drawdown_loop peak mdd vs).2.2.foldl max mdd := by
  induction vs with
  | nil => intro peak mdd; rfl
  | cons v rest ih =>
      intro peak mdd
      simp only [drawdown_loop, List.foldl_cons]
      exact ih _ _

theorem drawdown_loop_bounds (vs : List ℚ) : ∀ peak mdd,
    (∀ v ∈ vs, 0 < v) →
    ∀ d ∈ (drawdown_loop peak mdd vs).2.2, 0 ≤ d ∧ d ≤ 1 := by
  induction vs with
  | nil =>
      intro peak mdd _ d hd
      exact absurd hd (by simp [drawdown_loop])
  | cons v rest ih =>
      intro peak mdd hpos d hd
      simp only [drawdown_loop, List.mem_cons] at hd
      rcases hd with hd | hd
      · subst hd
        have hv : 0 < v := hpos v (List.mem_cons_self _ _)
        have hvp : v ≤ if v > peak then v else peak := by
          split
          · exact le_refl v
          · exact le_of_not_lt (by assumption)
        have hp0 : 0 < if v > peak then v else peak := lt_of_lt_of_le hv hvp
        constructor
        · exact div_nonneg (by linarith) (le_of_lt hp0)
        · rw [div_le_one hp0]; linarith
      · exact ih _ _ (fun x hx => hpos x (List.mem_cons_of_mem _ hx)) d hd

theorem foldl_max_le_self (l : List ℚ) : ∀ a : ℚ, a ≤ l.foldl max a := by
  induction l with
  | nil => intro a; exact le_refl a
  | cons x rest ih => intro a; exact le_trans (le_max_left a x) (ih (max a x))

theorem le_foldl_max (l : List ℚ) : ∀ a : ℚ, ∀ x ∈ l, x ≤ l.foldl max a := by
  induction l with
  | nil => intro a x hx; exact absurd hx (List.not_mem_nil x)
  | cons y rest ih =>
      intro a x hx
      rcases List.mem_cons.mp hx with h | h
      · subst h
        exact le_trans (le_max_right a x) (foldl_max_le_self rest _)
      · exact ih _ x h

theorem foldl_max_mem (l : List ℚ) : ∀ a : ℚ, l.foldl max a = a ∨ l.foldl max a ∈ l := by
  induction l with
  | nil => intro a; exact Or.inl rfl
  | cons x rest ih =>
      intro a
      rcases ih (max a x) with h | h
      · rw [List.foldl_cons, h]
        rcases le_total a x with hax | hax
        · right; rw [max_eq_right hax]; exact List.mem_cons_self _ _
        · left; exact max_eq_left hax
      · right
        rw [List.foldl_cons]
        exact List.mem_cons_of_mem _ h

/-- C5: for a non-empty positive equity series the drawdown curve has one
entry per equity entry, entry `i` is `(peak_i - V[i]) / peak_i` for the
running peak `peak_i` seeded at `initial_capital` (so `peak_0 =
max(initial_capital, V[0])`), and `max_drawdown` is the maximum of the curve
and lies in `[0, 1]`. -/
theorem drawdown_spec (initial_capital : ℚ) (values : List ℚ)
    (hne : values ≠ []) (hpos : ∀ v ∈ values, 0 < v) :
    ((drawdown_loop initial_capital 0 values).2.2).length = values.length ∧
    (∀ i, ∀ h : i < values.length,
      ((drawdown_loop initial_capital 0 values).2.2).get? i =
        some ((running_peak initial_capital (values.take (i + 1)) - values.get ⟨i, h⟩) /
          running_peak initial_capital (values.take (i + 1)))) ∧
    (drawdown_loop initial_capital 0 values).2.1 ∈
      (drawdown_loop initial_capital 0 values).2.2 ∧
    (∀ d ∈ (drawdown_loop initial_capital 0 values).2.2,
      d ≤ (drawdown_loop initial_capital 0 values).2.1) ∧
    0 ≤ (drawdown_loop initial_capital 0 values).2.1 ∧
    (drawdown_loop initial_capital 0 values).2.1 ≤ 1 := by
  have hlen := drawdown_loop_length values initial_capital 0
  have hmax := drawdown_loop_max_eq_foldl values initial_capital 0
  have hbounds := drawdown_loop_bounds values initial_capital 0 hpos
  have hcurve_ne : (drawdown_loop initial_capital 0 values).2.2 ≠ [] := by
    intro hc
    apply hne
    rw [← List.length_eq_zero, ← hlen, hc]
    rfl
  have hmem : (drawdown_loop initial_capital 0 values).2.1 ∈
      (drawdown_loop initial_capital 0 values).2.2 := by
    rcases foldl_max_mem (drawdown_loop initial_capital 0 values).2.2 0 with h | h
    · rcases List.exists_mem_of_ne_nil _ hcurve_ne with ⟨d, hd⟩
      have h1 : 0 ≤ d := (hbounds d hd).1
      have h2 : d ≤ (drawdown_loop initial_capital 0 values).2.2.foldl max 0 :=
        le_foldl_max _ 0 d hd
      rw [h] at h2
      have hd0 : d = 0 := le_antisymm h2 h1
      have hm0 : (drawdown_loop initial_capital 0 values).2.1 = d := by
        rw [hmax, h, hd0]
      rw [hm0]
      exact hd
    · rw [hmax]; exact h
  refine ⟨hlen, drawdown_loop_get? values initial_capital 0, hmem, ?_, ?_, ?_⟩
  · intro d hd
    rw [hmax]
    exact le_foldl_max _ 0 d hd
  · rw [hmax]
    exact foldl_max_le_self _ 0
  · exact (hbounds _ hmem).2

/-- Witness for C5 at the series `[100, 120, 90]` with initial capital 100:
the curve has three entries and `max_drawdown` (here `1/4`) is one of them,
bounds them and lies in `[0, 1]`. -/
theorem drawdown_spec_witness :
    ((drawdown_loop 100 0 [(100 : ℚ), 120, 90]).2.2).length = 3 ∧
    (drawdown_loop 100 0 [(100 : ℚ), 120, 90]).2.1 ∈
      (drawdown_loop 100 0 [(100 : ℚ), 120, 90]).2.2 ∧
    0 ≤ (drawdown_loop 100 0 [(100 : ℚ), 120, 90]).2.1 ∧
    (drawdown_loop 100 0 [(100 : ℚ), 120, 90]).2.1 ≤ 1 := by
  have h := drawdown_spec 100 [(100 : ℚ), 120, 90] (by simp) (by norm_num)
  exact ⟨h.1, h.2.2.1, h.2.2.2.2.1, h.2.2.2.2.2⟩

theorem trading_dates_of_nonempty (start_date end_date : ℕ)
    (raw : List (String × List Bar))
    (h : filter_backtest_data start_date end_date raw ≠ []) :
    get_trading_dates start_date end_date
      (filter_backtest_data start_date end_date raw) ≠ [] := by
  rcases hd : filter_backtest_data start_date end_date raw with _ | ⟨⟨t, df⟩, rest⟩
  · exact absurd hd h
  · have hmem : (t, df) ∈ filter_backtest_data start_date end_date raw := by
      rw [hd]; exact List.mem_cons_self _ _
    unfold filter_backtest_data at hmem
    have hmem2 := List.mem_filter.mp hmem
    obtain ⟨⟨t0, df0⟩, _, heq⟩ := List.mem_map.mp hmem2.1
    have hdf : df = filter_window start_date end_date df0 := by
      injection heq with h1 h2
      exact h2.symm
    have hdfne : df ≠ [] := by
      have := hmem2.2
      simp only [Bool.not_eq_true'] at this
      simpa [List.isEmpty_iff] using this
    simp only [get_trading_dates]
    rcases hb : df with _ | ⟨b, df'⟩
    · exact absurd hb hdfne
    · have hbmem : b ∈ filter_window start_date end_date df0 := by
        rw [← hdf, hb]; exact List.mem_cons_self _ _
      have hbp := (List.mem_filter.mp hbmem).2
      intro hcon
      have : b.date ∈ ((b :: df').map Bar.date).filter
          (fun d => decide (start_date ≤ d) && decide (d ≤ end_date)) :=
        List.mem_filter.mpr ⟨List.mem_map_of_mem _ (List.mem_cons_self _ _), hbp⟩
      rw [hcon] at this
      exact absurd this (List.not_mem_nil _)

/-- C1: if the window yields zero trading dates, `run_backtest` returns the
empty result (the `{}` of the no-data guard) without reaching the metrics
computation — in particular the `raised` outcome that models a
division-by-zero, index, or key error never occurs. -/
theorem run_backtest_empty_dates (start_date end_date : ℕ) (initial_capital : ℚ)
    (rebalance_frequency : String) (use_llm : Bool) (strategy : String)
    (llm_actions : ℕ → List LlmAction) (sqrtQ : ℚ → ℚ) (powQ : ℚ → ℚ → ℚ)
    (benchmark : String) (raw_data : List (String × List Bar))
    (h : get_trading_dates start_date end_date
      (filter_backtest_data start_date end_date raw_data) = []) :
    run_backtest start_date end_date initial_capital rebalance_frequency use_llm
      strategy llm_actions sqrtQ powQ benchmark raw_data = RunOutcome.empty := by
  by_cases hd : filter_backtest_data start_date end_date raw_data = []
  · simp only [run_backtest]
    rw [if_pos hd]
  · exact absurd h (trading_dates_of_nonempty start_date end_date raw_data hd)

/-- Witness for C1: a single bar dated outside the window yields zero trading
dates and the run short-circuits to the empty result. -/
theorem run_backtest_empty_dates_witness :
    get_trading_dates 10 20 (filter_backtest_data 10 20 [("SPY", [⟨5, 100⟩])]) = [] ∧
    run_backtest 10 20 10000 "daily" false "buy_and_hold" (fun _ => []) (fun _ => 0)
      (fun _ _ => 0) "SPY" [("SPY", [⟨5, 100⟩])] = RunOutcome.empty :=
  ⟨by decide, run_backtest_empty_dates 10 20 10000 "daily" false "buy_and_hold"
    (fun _ => []) (fun _ => 0) (fun _ _ => 0) "SPY" [("SPY", [⟨5, 100⟩])] (by decide)⟩

/-- C2 (code bug): under the `buy_and_hold` strategy the engine's dispatch has
no branch at all, so even on the first rebalance opportunity of a run whose
ledger holds no positions it issues no allocation instruction: after a
one-day run the trade log and position list are empty and the portfolio is
still entirely cash, contradicting the claimed initial allocation. -/
theorem buy_and_hold_no_allocation :
    (Portfolio.init 10000).positions = [] ∧
    should_rebalance "daily" 0 = true ∧
    ∃ st, run_backtest 0 0 10000 "daily" false "buy_and_hold" (fun _ => [])
        (fun _ => 0) (fun _ _ => 0) "A" [("A", [⟨0, 100⟩])] = RunOutcome.ok st ∧
      st.portfolio.trades = [] ∧ st.portfolio.positions = [] ∧
      st.portfolio.cash = 10000 ∧ st.results.length = 1 :=
  ⟨rfl, rfl, _, by with_unfolding_all rfl, by with_unfolding_all rfl,
    by with_unfolding_all rfl, by with_unfolding_all rfl, by with_unfolding_all rfl⟩

theorem update_prices_of_no_positions (pf : Portfolio)
    (prices : List (String × ℚ)) (h : pf.positions = []) :
    pf.update_prices prices = pf := by
  cases pf
  simp_all [Portfolio.update_prices]

theorem sim_fold_all_cash (rebalance_frequency strategy : String) (use_llm : Bool)
    (llm_actions : ℕ → List LlmAction) (data : List (String × List Bar))
    (hfreq : ∀ i, should_rebalance rebalance_frequency i = false) :
    ∀ (L : List (ℕ × ℕ)) (pf : Portfolio) (results : List DailyResult),
      pf.positions = [] →
      (L.foldl (sim_step rebalance_frequency strategy use_llm llm_actions data)
          (pf, results)).1.positions = [] ∧
      (L.foldl (sim_step rebalance_frequency strategy use_llm llm_actions data)
          (pf, results)).1.cash = pf.cash ∧
      (L.foldl (sim_step rebalance_frequency strategy use_llm llm_actions data)
          (pf, results)).1.trades = pf.trades := by
  intro L
  induction L with
  | nil => intro pf results h; exact ⟨h, rfl, rfl⟩
  | cons p rest ih =>
      intro pf results h
      rw [List.foldl_cons]
      have hstep : sim_step rebalance_frequency strategy use_llm llm_actions data
          (pf, results) p =
          (pf, results ++ [record_daily_result p.2 pf]) := by
        have hup : ∀ prices, pf.update_prices prices = pf := fun prices =>
          update_prices_of_no_positions pf prices h
        simp [sim_step, hfreq, hup]
      rw [hstep]
      exact ih pf _ h

/-- C10: on any rebalance-frequency string other than `daily` and `weekly`,
`_should_rebalance` is false for every day index, so no strategy executor is
ever invoked and a completed run ends with no positions, no trades and the
full initial capital in cash. -/
theorem unknown_frequency_all_cash (rebalance_frequency : String)
    (h1 : rebalance_frequency ≠ "daily") (h2 : rebalance_frequency ≠ "weekly") :
    (∀ i, should_rebalance rebalance_frequency i = false) ∧
    ∀ (start_date end_date : ℕ) (initial_capital : ℚ) (use_llm : Bool)
      (strategy : String) (llm_actions : ℕ → List LlmAction) (sqrtQ : ℚ → ℚ)
      (powQ : ℚ → ℚ → ℚ) (benchmark : String)
      (raw_data : List (String × List Bar)) (st : RunState),
      run_backtest start_date end_date initial_capital rebalance_frequency use_llm
        strategy llm_actions sqrtQ powQ benchmark raw_data = RunOutcome.ok st →
      st.portfolio.positions = [] ∧ st.portfolio.cash = initial_capital ∧
      st.portfolio.trades = [] := by
  have hfreq : ∀ i, should_rebalance rebalance_frequency i = false := by
    intro i
    unfold should_rebalance
    rw [if_neg h1, if_neg h2]
  refine ⟨hfreq, ?_⟩
  intro start_date end_date initial_capital use_llm strategy llm_actions sqrtQ powQ
    benchmark raw_data st hrun
  simp only [run_backtest] at hrun
  split at hrun
  · cases hrun
  · split at hrun
    · cases hrun
    · injection hrun with h3
      have hfold := sim_fold_all_cash rebalance_frequency strategy use_llm llm_actions
        (filter_backtest_data start_date end_date raw_data) hfreq
        (get_trading_dates start_date end_date
          (filter_backtest_data start_date end_date raw_data)).enum
        (Portfolio.init initial_capital) [] rfl
      rw [← h3]
      exact ⟨hfold.1, hfold.2.1, hfold.2.2⟩

/-- Witness for C10: a one-day run configured with frequency `monthly` never
rebalances and completes entirely in cash. -/
theorem unknown_frequency_all_cash_witness :
    should_rebalance "monthly" 0 = false ∧
    ∃ st, run_backtest 0 0 10000 "monthly" false "equal_weight" (fun _ => [])
        (fun _ => 0) (fun _ _ => 0) "A" [("A", [⟨0, 100⟩])] = RunOutcome.ok st ∧
      st.portfolio.positions = [] ∧ st.portfolio.cash = 10000 ∧
      st.portfolio.trades = [] := by
  have h := unknown_frequency_all_cash "monthly" (by decide) (by decide)
  refine ⟨h.1 0, _, by with_unfolding_all rfl, ?_⟩
  exact h.2 0 0 10000 false "equal_weight" (fun _ => []) (fun _ => 0) (fun _ _ => 0)
    "A" [("A", [⟨0, 100⟩])] _ (by with_unfolding_all rfl)
